import Mathlib

/-!
Shallow embedding of the optimize-go activity test driver
(`pkg/api/applications/v2` API test, function `runTest` and helper
`newExperimentName`) and of the CLI command helpers in
`pkg/command/experiments.go` (delete visitors, `normalizeResource`).

Go API calls are modelled by `Except GoErr` results supplied by an
environment record; each loop is a Lean function from its environment to
the trace of observable calls it makes plus its outcome.  testify's
`require.*` failing inside a goroutine terminates that goroutine
(runtime.Goexit), so a failed `require` at the top level of a loop body
aborts the loop, while a failed `require` inside a `t.Run` subtest only
fails that subtest and the enclosing loop continues.
-/

namespace OptimizeGo

/-- Go error model: `api.Error` carries a `Type` field (reachable through
`errors.As`); every other error is opaque. -/
inductive GoErr where
  | apiErr (etype : String) (msg : String)
  | otherErr (msg : String)
deriving DecidableEq

/-- Error type constant `experiments.ErrExperimentStopped` (the concrete
string is private to the experiments package; only equality on it matters). -/
def ErrExperimentStopped : String := "experiment-stopped"

/-- Embeds `errors.As(err, &aerr) && aerr.Type == experiments.ErrExperimentStopped`:
type inspection succeeds only for an `api.Error`, then the `Type` field is compared. -/
def isExperimentStopped : GoErr → Bool
  | GoErr.apiErr t _ => t == ErrExperimentStopped
  | GoErr.otherErr _ => false

/-- Trial assignments as returned by `NextTrial` (only the metadata location
is observable to the loop). -/
structure TrialAssignments where
  location : String
deriving DecidableEq

instance exceptDecEq {ε α : Type} [DecidableEq ε] [DecidableEq α] :
    DecidableEq (Except ε α)
  | Except.error a, Except.error b =>
    if h : a = b then isTrue (by rw [h])
    else isFalse (by intro hc; injection hc with h2; exact h h2)
  | Except.error _, Except.ok _ => isFalse (by intro h; injection h)
  | Except.ok _, Except.error _ => isFalse (by intro h; injection h)
  | Except.ok a, Except.ok b =>
    if h : a = b then isTrue (by rw [h])
    else isFalse (by intro hc; injection hc with h2; exact h h2)

/-- Environment for one iteration of the trial loop: the result of the
`NextTrial` call and, if it yields assignments, the result of the
`ReportTrial` call for them. -/
structure TrialStep where
  next : Except GoErr TrialAssignments
  report : Except GoErr Unit
deriving DecidableEq

/-- Observable calls made by the Run handler of `runTest`. -/
inductive RunEv where
  | getTemplate
  | createExperiment
  | createTrial (labels : List (String × String)) (assignments : List (String × String))
  | nextTrial
  | reportTrial
  | wgDone
deriving DecidableEq

/-- Outcome of the `for { NextTrial ... ReportTrial ... }` loop. -/
inductive LoopResult where
  | stopped
  | failed (e : GoErr)
  | outOfFuel
deriving DecidableEq

/-- Embedding of the trial loop of `runTest` (part_000 lines 174-185):

    for {
      ta, err := expAPI.NextTrial(ctx, exp.Link(api.RelationNextTrial))
      var aerr *api.Error
      if errors.As(err, &aerr) && aerr.Type == experiments.ErrExperimentStopped { break }
      require.NoError(t, err, "failed to fetch trial assignments")
      assert.NotEmpty(t, ta.Location(), "missing location")
      err = expAPI.ReportTrial(ctx, ta.Location(), td.TrialResults(&ta))
      require.NoError(t, err, "failed to report trial")
    }

The environment list supplies one `TrialStep` per iteration; an exhausted
list models the (unbounded) loop running longer than the supplied
environment, reported as `outOfFuel`. -/
def trialLoop : List TrialStep → List RunEv × LoopResult
  | [] => ([], LoopResult.outOfFuel)
  | s :: rest =>
    match s.next with
    | Except.error e =>
        if isExperimentStopped e then ([RunEv.nextTrial], LoopResult.stopped)
        else ([RunEv.nextTrial], LoopResult.failed e)
    | Except.ok _ =>
        match s.report with
        | Except.error e => ([RunEv.nextTrial, RunEv.reportTrial], LoopResult.failed e)
        | Except.ok _ =>
            let lr := trialLoop rest
            (RunEv.nextTrial :: RunEv.reportTrial :: lr.1, lr.2)

/-- One iteration succeeded: `NextTrial` yielded assignments and
`ReportTrial` returned no error. -/
def stepOk (s : TrialStep) : Bool :=
  (match s.next with | Except.ok _ => true | Except.error _ => false) &&
  (match s.report with | Except.ok _ => true | Except.error _ => false)

/-- First error surfaced by an iteration (`none` when the iteration
succeeds or terminates the loop via the stopped signal). -/
def stepFail (s : TrialStep) : Option GoErr :=
  match s.next with
  | Except.error e => if isExperimentStopped e then none else some e
  | Except.ok _ =>
    match s.report with
    | Except.error e => some e
    | Except.ok _ => none

/-- The iteration's `NextTrial` returned the `ExperimentStopped`-typed error. -/
def isStoppedStep (s : TrialStep) : Bool :=
  match s.next with
  | Except.error e => isExperimentStopped e
  | Except.ok _ => false

/-- Number of `NextTrial` calls recorded in a trace (one per loop iteration). -/
def countNextTrial : List RunEv → Nat
  | [] => 0
  | RunEv.nextTrial :: rest => countNextTrial rest + 1
  | _ :: rest => countNextTrial rest

theorem trialLoop_ok_cons (s : TrialStep) (hs : stepOk s = true) (l : List TrialStep) :
    trialLoop (s :: l) =
      (RunEv.nextTrial :: RunEv.reportTrial :: (trialLoop l).1, (trialLoop l).2) := by
  unfold stepOk at hs
  cases hn : s.next with
  | error e => rw [hn] at hs; simp at hs
  | ok ta =>
    cases hr : s.report with
    | error e => rw [hn, hr] at hs; simp at hs
    | ok u => simp [trialLoop, hn, hr]

theorem trialLoop_append_ok (pre l : List TrialStep)
    (h : ∀ t ∈ pre, stepOk t = true) :
    (trialLoop (pre ++ l)).2 = (trialLoop l).2 ∧
      countNextTrial (trialLoop (pre ++ l)).1 =
        pre.length + countNextTrial (trialLoop l).1 := by
  induction pre with
  | nil => simp
  | cons s pre ih =>
    have hs : stepOk s = true := h s (List.mem_cons_self s pre)
    have hpre : ∀ t ∈ pre, stepOk t = true := fun t ht => h t (List.mem_cons_of_mem s ht)
    have ih' := ih hpre
    rw [List.cons_append, trialLoop_ok_cons s hs (pre ++ l)]
    constructor
    · exact ih'.1
    · simp only [countNextTrial, ih'.2, List.length_cons]
      omega

theorem trialLoop_stopped_cons (s : TrialStep) (hs : isStoppedStep s = true)
    (l : List TrialStep) :
    trialLoop (s :: l) = ([RunEv.nextTrial], LoopResult.stopped) := by
  unfold isStoppedStep at hs
  cases hn : s.next with
  | error e =>
    rw [hn] at hs
    have hst : isExperimentStopped e = true := hs
    simp [trialLoop, hn, hst]
  | ok ta =>
    rw [hn] at hs
    exact absurd hs (by simp)

theorem trialLoop_fail_cons (s : TrialStep) (e : GoErr) (hf : stepFail s = some e)
    (l : List TrialStep) :
    (trialLoop (s :: l)).2 = LoopResult.failed e ∧
      countNextTrial (trialLoop (s :: l)).1 = 1 := by
  unfold stepFail at hf
  cases hn : s.next with
  | error e' =>
    rw [hn] at hf
    by_cases hst : isExperimentStopped e' = true
    · simp [hst] at hf
    · have hb : isExperimentStopped e' = false := by
        cases h : isExperimentStopped e' with
        | true => exact absurd h hst
        | false => rfl
      simp [hb] at hf
      subst hf
      simp [trialLoop, hn, hb, countNextTrial]
  | ok ta =>
    rw [hn] at hf
    cases hr : s.report with
    | error e' =>
      rw [hr] at hf
      simp at hf
      subst hf
      simp [trialLoop, hn, hr, countNextTrial]
    | ok u => rw [hr] at hf; simp at hf

theorem trialLoop_stopped_mem (steps : List TrialStep)
    (h : (trialLoop steps).2 = LoopResult.stopped) :
    ∃ pre s post, steps = pre ++ s :: post ∧
      (∀ t ∈ pre, stepOk t = true) ∧ isStoppedStep s = true := by
  induction steps with
  | nil => simp [trialLoop] at h
  | cons s rest ih =>
    cases hn : s.next with
    | error e =>
      by_cases hst : isExperimentStopped e = true
      · exact ⟨[], s, rest, by simp, by simp, by simp [isStoppedStep, hn, hst]⟩
      · have hb : isExperimentStopped e = false := by
          cases hv : isExperimentStopped e with
          | true => exact absurd hv hst
          | false => rfl
        simp [trialLoop, hn, hb] at h
    | ok ta =>
      cases hr : s.report with
      | error e => simp [trialLoop, hn, hr] at h
      | ok u =>
        have hstep : stepOk s = true := by simp [stepOk, hn, hr]
        rw [trialLoop_ok_cons s hstep rest] at h
        simp at h
        obtain ⟨pre, s', post, heq, hpre, hs'⟩ := ih h
        exact ⟨s :: pre, s', post, by rw [heq]; rfl,
          fun t ht => by
            rcases List.mem_cons.mp ht with h1 | h2
            · rw [h1]; exact hstep
            · exact hpre t h2, hs'⟩

/-- C1: the trial-run loop exits successfully (no failure surfaced) exactly
when some iteration's `NextTrial` error is recognized by type inspection as
an `api.Error` with `Type == ErrExperimentStopped`, after a prefix of
successful iterations — including the first iteration (empty prefix); and
any other error, whether from `NextTrial` or from `ReportTrial`, makes the
loop surface exactly that error with no further iterations (the `NextTrial`
call count stops at the failing iteration). -/
theorem c1_trial_loop_stop_and_abort (steps : List TrialStep) :
    ((trialLoop steps).2 = LoopResult.stopped ↔
      ∃ pre s post, steps = pre ++ s :: post ∧
        (∀ t ∈ pre, stepOk t = true) ∧ isStoppedStep s = true) ∧
    (∀ pre s post e, steps = pre ++ s :: post →
      (∀ t ∈ pre, stepOk t = true) → stepFail s = some e →
      (trialLoop steps).2 = LoopResult.failed e ∧
        countNextTrial (trialLoop steps).1 = pre.length + 1) := by
  constructor
  · constructor
    · exact trialLoop_stopped_mem steps
    · rintro ⟨pre, s, post, heq, hpre, hs⟩
      subst heq
      have h1 := trialLoop_append_ok pre (s :: post) hpre
      rw [h1.1, trialLoop_stopped_cons s hs post]
  · intro pre s post e heq hpre hf
    subst heq
    have h1 := trialLoop_append_ok pre (s :: post) hpre
    have h2 := trialLoop_fail_cons s e hf post
    exact ⟨by rw [h1.1, h2.1], by rw [h1.2, h2.2]⟩

/-- Concrete environment: the very first `NextTrial` call reports the
experiment as stopped. -/
def stoppedFirst : TrialStep :=
  { next := Except.error (GoErr.apiErr ErrExperimentStopped ("experiment is stopped")),
    report := Except.ok () }

theorem c1_witness : (trialLoop [stoppedFirst]).2 = LoopResult.stopped :=
  (c1_trial_loop_stop_and_abort [stoppedFirst]).1.mpr
    ⟨[], stoppedFirst, [], rfl, by intro t ht; simp at ht, by decide⟩

/-- Experiment metadata links checked by the Run handler. -/
structure ExpLinks where
  trials : String
  nextTrialLink : String
  selfLink : String
deriving DecidableEq

/-- Environment for one execution of the Run handler: results of its
sequential API calls, then the per-iteration environment of the trial loop. -/
structure RunEnv where
  getTemplate : Except GoErr Unit
  newAPI : Except GoErr Unit
  createExperiment : Except GoErr ExpLinks
  createBaseline : Except GoErr Unit
  steps : List TrialStep

/-- Outcome of the Run subtest (testify `require` failure fails the
subtest; the stopped signal lets it return normally). -/
inductive RunResult where
  | passed
  | failed (e : GoErr)
  | outOfFuel
deriving DecidableEq

/-- Embedding of the Run handler of `runTest` (part_000 lines 155-186):
`defer run.Done()`, then `GetTemplate`, `NewAPIWithEndpoint`,
`CreateExperimentByName`, the baseline `CreateTrial` with
`Labels: \x7b"baseline": "true"\x7d` and `Assignments: td.Baseline`, then
the trial loop.  Each `require.NoError` aborts the subtest on error; the
deferred `run.Done()` still executes (it is the final event of every
trace). -/
def runHandler (baseline : List (String × String)) (env : RunEnv) :
    List RunEv × RunResult :=
  match env.getTemplate with
  | Except.error e => ([RunEv.getTemplate, RunEv.wgDone], RunResult.failed e)
  | Except.ok _ =>
  match env.newAPI with
  | Except.error e => ([RunEv.getTemplate, RunEv.wgDone], RunResult.failed e)
  | Except.ok _ =>
  match env.createExperiment with
  | Except.error e =>
      ([RunEv.getTemplate, RunEv.createExperiment, RunEv.wgDone], RunResult.failed e)
  | Except.ok _ =>
  match env.createBaseline with
  | Except.error e =>
      ([RunEv.getTemplate, RunEv.createExperiment,
        RunEv.createTrial [("baseline", "true")] baseline, RunEv.wgDone],
       RunResult.failed e)
  | Except.ok _ =>
      let lr := trialLoop env.steps
      (RunEv.getTemplate :: RunEv.createExperiment ::
         RunEv.createTrial [("baseline", "true")] baseline :: (lr.1 ++ [RunEv.wgDone]),
       match lr.2 with
       | LoopResult.stopped => RunResult.passed
       | LoopResult.failed e => RunResult.failed e
       | LoopResult.outOfFuel => RunResult.outOfFuel)

theorem trialLoop_no_createTrial (steps : List TrialStep) (l a : List (String × String)) :
    RunEv.createTrial l a ∉ (trialLoop steps).1 := by
  induction steps with
  | nil => simp [trialLoop]
  | cons s rest ih =>
    cases hn : s.next with
    | error e =>
      by_cases hst : isExperimentStopped e = true
      · simp [trialLoop, hn, hst]
      · have hb : isExperimentStopped e = false := by
          cases hv : isExperimentStopped e with
          | true => exact absurd hv hst
          | false => rfl
        simp [trialLoop, hn, hb]
    | ok ta =>
      cases hr : s.report with
      | error e => simp [trialLoop, hn, hr]
      | ok u => simp [trialLoop, hn, hr]; exact ih

/-- C6: in each run handling, the baseline trial is created before any
`NextTrial` call — whenever the trace contains a `NextTrial` event, the
trace splits around a baseline `createTrial` event with no `NextTrial` (and
no other `createTrial`) before it; every `createTrial` in the trace carries
the label `baseline=true` and the caller-supplied baseline assignments; and
a failure to create the baseline trial — the first failure the handler can
meet once its preliminary calls succeed — is surfaced as the run's failure
with zero trial iterations attempted. -/
theorem c6_baseline_first (b : List (String × String)) (env : RunEnv) :
    (∀ l a, RunEv.createTrial l a ∈ (runHandler b env).1 →
      l = [("baseline", "true")] ∧ a = b) ∧
    (0 < countNextTrial (runHandler b env).1 →
      ∃ pre post, (runHandler b env).1 =
          pre ++ RunEv.createTrial [("baseline", "true")] b :: post ∧
        countNextTrial pre = 0 ∧ ∀ l a, RunEv.createTrial l a ∉ pre) ∧
    (∀ e, env.getTemplate = Except.ok () → env.newAPI = Except.ok () →
      (∃ x, env.createExperiment = Except.ok x) →
      env.createBaseline = Except.error e →
      (runHandler b env).2 = RunResult.failed e ∧
        countNextTrial (runHandler b env).1 = 0) := by
  cases h1 : env.getTemplate with
  | error e1 =>
    refine ⟨?_, ?_, ?_⟩
    · intro l a hmem; simp [runHandler, h1] at hmem
    · intro hc; simp [runHandler, h1, countNextTrial] at hc
    · intro e hg hn hc he; exact absurd hg (by simp)
  | ok u1 =>
  cases h2 : env.newAPI with
  | error e2 =>
    refine ⟨?_, ?_, ?_⟩
    · intro l a hmem; simp [runHandler, h1, h2] at hmem
    · intro hc; simp [runHandler, h1, h2, countNextTrial] at hc
    · intro e hg hn hc he; exact absurd hn (by simp)
  | ok u2 =>
  cases h3 : env.createExperiment with
  | error e3 =>
    refine ⟨?_, ?_, ?_⟩
    · intro l a hmem; simp [runHandler, h1, h2, h3] at hmem
    · intro hc; simp [runHandler, h1, h2, h3, countNextTrial] at hc
    · intro e hg hn hc he
      obtain ⟨x, hx⟩ := hc
      injection hx
  | ok exp =>
  cases h4 : env.createBaseline with
  | error e4 =>
    refine ⟨?_, ?_, ?_⟩
    · intro l a hmem
      simp [runHandler, h1, h2, h3, h4] at hmem
      exact ⟨hmem.1, hmem.2⟩
    · intro hc; simp [runHandler, h1, h2, h3, h4, countNextTrial] at hc
    · intro e hg hn hc he
      injection he with he
      subst he
      simp [runHandler, h1, h2, h3, h4, countNextTrial]
  | ok u4 =>
    refine ⟨?_, ?_, ?_⟩
    · intro l a hmem
      simp [runHandler, h1, h2, h3, h4] at hmem
      rcases hmem with ⟨hl, ha⟩ | hmem
      · exact ⟨hl, ha⟩
      · exact absurd hmem (trialLoop_no_createTrial env.steps l a)
    · intro hc
      refine ⟨[RunEv.getTemplate, RunEv.createExperiment],
        (trialLoop env.steps).1 ++ [RunEv.wgDone], ?_, ?_, ?_⟩
      · simp [runHandler, h1, h2, h3, h4]
      · simp [countNextTrial]
      · intro l a; simp
    · intro e hg hn hc he; injection he

/-- Concrete environment whose baseline `CreateTrial` fails. -/
def baselineFailEnv : RunEnv :=
  { getTemplate := Except.ok (),
    newAPI := Except.ok (),
    createExperiment := Except.ok { trials := "t", nextTrialLink := "n", selfLink := "s" },
    createBaseline := Except.error (GoErr.otherErr ("baseline create failed")),
    steps := [stoppedFirst] }

theorem c6_witness :
    (runHandler [("cpu", "500m")] baselineFailEnv).2 =
        RunResult.failed (GoErr.otherErr ("baseline create failed")) ∧
      countNextTrial (runHandler [("cpu", "500m")] baselineFailEnv).1 = 0 :=
  (c6_baseline_first [("cpu", "500m")] baselineFailEnv).2.2
    (GoErr.otherErr ("baseline create failed")) rfl rfl
    ⟨{ trials := "t", nextTrialLink := "n", selfLink := "s" }, rfl⟩ rfl

/-- Activity tags (`applications.TagScan`, `applications.TagRun`; other
tags may occur on items even though the subscription filters on these two). -/
inductive Tag where
  | scan
  | run
  | other (s : String)
deriving DecidableEq

/-- Activity feed item as consumed from the subscription channel. -/
structure ActivityItem where
  URL : String
  ExternalURL : String
  Tags : List Tag
deriving DecidableEq

/-- Embeds `ai.HasTag(t)`. -/
def ActivityItem.HasTag (ai : ActivityItem) (t : Tag) : Bool :=
  ai.Tags.contains t

/-- Scenario links checked by the dispatch loop before the tag switch. -/
structure Scenario where
  TemplateLink : String
  ExperimentsLink : String
  UpLink : String
deriving DecidableEq

/-- Environment for dispatching one activity item: results of the calls the
loop body makes for it. -/
structure ItemEnv where
  getScenario : Except GoErr Scenario
  getApplication : Except GoErr Unit
  updateTemplate : Except GoErr Unit
  runEnv : RunEnv
  deleteActivity : Except GoErr Unit

/-- Observable calls of the dispatch loop, tagged with the position of the
item in the received sequence: completion of the item's Scan/Run subtest
(with the subtest verdict) and the `DeleteActivity` acknowledgement call on
the item's URL. -/
inductive DEv where
  | handled (i : Nat) (passed : Bool)
  | deleted (i : Nat) (url : String)
deriving DecidableEq

/-- Position an event refers to. -/
def evIndex : DEv → Nat
  | DEv.handled i _ => i
  | DEv.deleted i _ => i

/-- Embedding of one iteration of the `for ai := range activity` body of
`runTest` (part_000 lines 127-191): `GetScenario` plus the three
`require.NotEmpty` link checks, `GetApplication` (each failed `require`
aborts the consumer goroutine before anything else happens for the item),
then the tag switch running the Scan or Run subtest (whose own `require`
failures only fail the subtest — the loop continues either way, and an item
matching neither tag falls through with no handler), and finally
`DeleteActivity(ctx, ai.URL)` whose `require.NoError` aborts the loop when
the acknowledgement fails.  Returns the item's events and whether the loop
may continue. -/
def dispatchStep (b : List (String × String)) (i : Nat) (ai : ActivityItem)
    (e : ItemEnv) : List DEv × Bool :=
  match e.getScenario with
  | Except.error _ => ([], false)
  | Except.ok scn =>
    if scn.TemplateLink = "" ∨ scn.ExperimentsLink = "" ∨ scn.UpLink = "" then
      ([], false)
    else
      match e.getApplication with
      | Except.error _ => ([], false)
      | Except.ok _ =>
        let hevs : List DEv :=
          if ai.HasTag Tag.scan then
            [DEv.handled i (match e.updateTemplate with
              | Except.ok _ => true
              | Except.error _ => false)]
          else if ai.HasTag Tag.run then
            [DEv.handled i (match (runHandler b e.runEnv).2 with
              | RunResult.passed => true
              | _ => false)]
          else []
        (hevs ++ [DEv.deleted i ai.URL],
         match e.deleteActivity with
         | Except.ok _ => true
         | Except.error _ => false)

/-- The item's scenario retrieval, link checks and application retrieval
all succeed, so the loop body reaches the tag switch and the
acknowledgement. -/
def retrievalOk (e : ItemEnv) : Bool :=
  match e.getScenario with
  | Except.error _ => false
  | Except.ok scn =>
    if scn.TemplateLink = "" ∨ scn.ExperimentsLink = "" ∨ scn.UpLink = "" then false
    else
      match e.getApplication with
      | Except.error _ => false
      | Except.ok _ => true

/-- The `DeleteActivity` acknowledgement succeeds. -/
def deleteOk (e : ItemEnv) : Bool :=
  match e.deleteActivity with
  | Except.ok _ => true
  | Except.error _ => false

/-- The whole loop body for the item runs without a fatal `require`. -/
def stepSucceeds (e : ItemEnv) : Bool :=
  retrievalOk e && deleteOk e

/-- Embedding of the `for ai := range activity` dispatch loop itself: items
are consumed in order starting at position `i`; an aborting step
(goroutine exit via `require`) ends consumption, so later items are never
received. -/
def dispatchLoop (b : List (String × String)) :
    Nat → List (ActivityItem × ItemEnv) → List DEv × Bool
  | _, [] => ([], true)
  | i, (ai, e) :: rest =>
    if (dispatchStep b i ai e).2 then
      ((dispatchStep b i ai e).1 ++ (dispatchLoop b (i + 1) rest).1,
       (dispatchLoop b (i + 1) rest).2)
    else
      ((dispatchStep b i ai e).1, false)

/-- Number of acknowledgement calls recorded for the item at position `i`. -/
def countDeleted (i : Nat) : List DEv → Nat
  | [] => 0
  | DEv.deleted j _ :: rest =>
      if j = i then countDeleted i rest + 1 else countDeleted i rest
  | DEv.handled _ _ :: rest => countDeleted i rest

theorem countDeleted_append (i : Nat) (l1 l2 : List DEv) :
    countDeleted i (l1 ++ l2) = countDeleted i l1 + countDeleted i l2 := by
  induction l1 with
  | nil => simp [countDeleted]
  | cons ev rest ih =>
    cases ev with
    | handled j p => simp [countDeleted, ih]
    | deleted j u =>
      by_cases h : j = i
      · simp [countDeleted, h, ih]; omega
      · simp [countDeleted, h, ih]

theorem countDeleted_eq_zero (i : Nat) (l : List DEv)
    (h : ∀ ev ∈ l, evIndex ev ≠ i) :
    countDeleted i l = 0 := by
  induction l with
  | nil => rfl
  | cons ev rest ih =>
    have hev := h ev (List.mem_cons_self ev rest)
    have hrest : ∀ ev ∈ rest, evIndex ev ≠ i :=
      fun x hx => h x (List.mem_cons_of_mem ev hx)
    cases ev with
    | handled j p => simp [countDeleted, ih hrest]
    | deleted j u =>
      have : j ≠ i := hev
      simp [countDeleted, this, ih hrest]

theorem dispatchStep_snd (b : List (String × String)) (i : Nat)
    (ai : ActivityItem) (e : ItemEnv) :
    (dispatchStep b i ai e).2 = stepSucceeds e := by
  unfold dispatchStep stepSucceeds retrievalOk deleteOk
  cases e.getScenario with
  | error err => rfl
  | ok scn =>
    by_cases hl : scn.TemplateLink = "" ∨ scn.ExperimentsLink = "" ∨ scn.UpLink = ""
    · simp [hl]
    · cases e.getApplication with
      | error err => simp [hl]
      | ok u =>
        cases e.deleteActivity with
        | error err => simp [hl]
        | ok u2 => simp [hl]

theorem dispatchStep_idx (b : List (String × String)) (i : Nat)
    (ai : ActivityItem) (e : ItemEnv) :
    ∀ ev ∈ (dispatchStep b i ai e).1, evIndex ev = i := by
  unfold dispatchStep
  cases e.getScenario with
  | error err => intro ev hev; simp at hev
  | ok scn =>
    by_cases hl : scn.TemplateLink = "" ∨ scn.ExperimentsLink = "" ∨ scn.UpLink = ""
    · simp [hl]
    · cases e.getApplication with
      | error err => intro ev hev; simp [hl] at hev
      | ok u =>
        intro ev hev
        simp only [hl, if_false] at hev
        by_cases hscan : ai.HasTag Tag.scan = true
        · simp [hscan] at hev
          rcases hev with h | h <;> rw [h] <;> rfl
        · by_cases hrun : ai.HasTag Tag.run = true
          · simp [hscan, hrun] at hev
            rcases hev with h | h <;> rw [h] <;> rfl
          · simp [hscan, hrun] at hev
            rw [hev]; rfl

theorem dispatchStep_not_retrieved (b : List (String × String)) (i : Nat)
    (ai : ActivityItem) (e : ItemEnv) (h : retrievalOk e = false) :
    (dispatchStep b i ai e).1 = [] := by
  unfold dispatchStep
  unfold retrievalOk at h
  cases hs : e.getScenario with
  | error err => simp [hs]
  | ok scn =>
    rw [hs] at h
    by_cases hl : scn.TemplateLink = "" ∨ scn.ExperimentsLink = "" ∨ scn.UpLink = ""
    · simp [hs, hl]
    · push_neg at hl
      cases ha : e.getApplication with
      | error err => simp [hs, hl.1, hl.2.1, hl.2.2, ha]
      | ok u =>
        rw [ha] at h
        simp [hl.1, hl.2.1, hl.2.2] at h

theorem dispatchStep_retrieved (b : List (String × String)) (i : Nat)
    (ai : ActivityItem) (e : ItemEnv) (h : retrievalOk e = true) :
    ∃ hevs, (dispatchStep b i ai e).1 = hevs ++ [DEv.deleted i ai.URL] ∧
      countDeleted i hevs = 0 ∧
      ((ai.HasTag Tag.scan || ai.HasTag Tag.run) = true →
        ∃ p, hevs = [DEv.handled i p]) := by
  unfold dispatchStep
  unfold retrievalOk at h
  cases hs : e.getScenario with
  | error err => rw [hs] at h; simp at h
  | ok scn =>
    rw [hs] at h
    by_cases hl : scn.TemplateLink = "" ∨ scn.ExperimentsLink = "" ∨ scn.UpLink = ""
    · rcases hl with h1 | h1 | h1 <;> simp [h1] at h
    · push_neg at hl
      cases ha : e.getApplication with
      | error err => rw [ha] at h; simp at h
      | ok u =>
        by_cases hscan : ai.HasTag Tag.scan = true
        · refine ⟨[DEv.handled i (match e.updateTemplate with
            | Except.ok _ => true
            | Except.error _ => false)],
            by simp [hs, hl.1, hl.2.1, hl.2.2, ha, hscan],
            by simp [countDeleted], ?_⟩
          intro htag; exact ⟨_, rfl⟩
        · by_cases hrun : ai.HasTag Tag.run = true
          · refine ⟨[DEv.handled i (match (runHandler b e.runEnv).2 with
              | RunResult.passed => true
              | _ => false)],
              by simp [hs, hl.1, hl.2.1, hl.2.2, ha, hscan, hrun],
              by simp [countDeleted], ?_⟩
            intro htag; exact ⟨_, rfl⟩
          · refine ⟨[], by simp [hs, hl.1, hl.2.1, hl.2.2, ha, hscan, hrun], rfl, ?_⟩
            intro htag
            simp [hscan, hrun] at htag

theorem dispatchStep_deleted_count (b : List (String × String)) (i : Nat)
    (ai : ActivityItem) (e : ItemEnv) (h : retrievalOk e = true) :
    countDeleted i (dispatchStep b i ai e).1 = 1 := by
  obtain ⟨hevs, heq, hc, _⟩ := dispatchStep_retrieved b i ai e h
  rw [heq, countDeleted_append, hc]
  simp [countDeleted]

theorem dispatchLoop_cons (b : List (String × String)) (n : Nat)
    (ai : ActivityItem) (e : ItemEnv) (rest : List (ActivityItem × ItemEnv)) :
    dispatchLoop b n ((ai, e) :: rest) =
      if (dispatchStep b n ai e).2 then
        ((dispatchStep b n ai e).1 ++ (dispatchLoop b (n + 1) rest).1,
         (dispatchLoop b (n + 1) rest).2)
      else ((dispatchStep b n ai e).1, false) := rfl

theorem dispatchLoop_idx (b : List (String × String)) (items : List (ActivityItem × ItemEnv)) :
    ∀ (n : Nat), ∀ ev ∈ (dispatchLoop b n items).1,
      n ≤ evIndex ev ∧ evIndex ev < n + items.length := by
  induction items with
  | nil => intro n ev hev; simp [dispatchLoop] at hev
  | cons p rest ih =>
    obtain ⟨ai, e⟩ := p
    intro n ev hev
    rw [dispatchLoop_cons] at hev
    by_cases hstep : (dispatchStep b n ai e).2 = true
    · rw [if_pos hstep] at hev
      rcases List.mem_append.mp hev with h1 | h2
      · have hx := dispatchStep_idx b n ai e ev h1
        simp [hx, List.length_cons]
      · have hx := ih (n + 1) ev h2
        simp only [List.length_cons]
        omega
    · rw [if_neg hstep] at hev
      have hx := dispatchStep_idx b n ai e ev hev
      simp [hx, List.length_cons]

theorem dispatch_split (b : List (String × String))
    (pre : List (ActivityItem × ItemEnv)) :
    ∀ (n : Nat) (rest : List (ActivityItem × ItemEnv)),
    ∃ t, (∀ ev ∈ t, n ≤ evIndex ev ∧ evIndex ev < n + pre.length) ∧
      (((dispatchLoop b n (pre ++ rest)).1 =
          t ++ (dispatchLoop b (n + pre.length) rest).1 ∧
        (dispatchLoop b n (pre ++ rest)).2 =
          (dispatchLoop b (n + pre.length) rest).2) ∨
       dispatchLoop b n (pre ++ rest) = (t, false)) := by
  induction pre with
  | nil =>
    intro n rest
    exact ⟨[], by simp, Or.inl (by simp)⟩
  | cons p pre ih =>
    obtain ⟨ai, e⟩ := p
    intro n rest
    by_cases hstep : (dispatchStep b n ai e).2 = true
    · obtain ⟨t, ht, hcase⟩ := ih (n + 1) rest
      have harith : n + 1 + pre.length = n + (pre.length + 1) := by omega
      refine ⟨(dispatchStep b n ai e).1 ++ t, ?_, ?_⟩
      · intro ev hev
        rcases List.mem_append.mp hev with h1 | h2
        · have hx := dispatchStep_idx b n ai e ev h1
          simp [hx, List.length_cons]
        · have hx := ht ev h2
          simp only [List.length_cons]
          omega
      · rcases hcase with ⟨h1, h2⟩ | h3
        · left
          rw [harith] at h1 h2
          constructor
          · rw [List.cons_append, dispatchLoop_cons, if_pos hstep]
            simp only [List.length_cons]
            rw [h1, List.append_assoc]
          · rw [List.cons_append, dispatchLoop_cons, if_pos hstep]
            simp only [List.length_cons]
            rw [h2]
        · right
          rw [List.cons_append, dispatchLoop_cons, if_pos hstep, h3]
    · refine ⟨(dispatchStep b n ai e).1, ?_, Or.inr ?_⟩
      · intro ev hev
        have hx := dispatchStep_idx b n ai e ev hev
        simp [hx, List.length_cons]
      · rw [List.cons_append, dispatchLoop_cons, if_neg hstep]

theorem dispatch_append_ok (b : List (String × String))
    (pre : List (ActivityItem × ItemEnv))
    (h : ∀ q ∈ pre, stepSucceeds q.2 = true) :
    ∀ (n : Nat) (rest : List (ActivityItem × ItemEnv)),
    (dispatchLoop b n (pre ++ rest)).1 =
        (dispatchLoop b n pre).1 ++ (dispatchLoop b (n + pre.length) rest).1 ∧
      (dispatchLoop b n (pre ++ rest)).2 = (dispatchLoop b (n + pre.length) rest).2 := by
  induction pre with
  | nil => intro n rest; simp [dispatchLoop]
  | cons p pre ih =>
    obtain ⟨ai, e⟩ := p
    intro n rest
    have hp : stepSucceeds e = true := h (ai, e) (List.mem_cons_self _ _)
    have hpre : ∀ q ∈ pre, stepSucceeds q.2 = true :=
      fun q hq => h q (List.mem_cons_of_mem _ hq)
    have hstep : (dispatchStep b n ai e).2 = true := by
      rw [dispatchStep_snd]; exact hp
    have harith : n + 1 + pre.length = n + (pre.length + 1) := by omega
    have ihx := ih hpre (n + 1) rest
    constructor
    · rw [List.cons_append, dispatchLoop_cons, if_pos hstep]
      simp only [List.length_cons]
      rw [dispatchLoop_cons, if_pos hstep]
      simp only []
      rw [ihx.1, harith, List.append_assoc]
    · rw [List.cons_append, dispatchLoop_cons, if_pos hstep]
      simp only [List.length_cons]
      rw [ihx.2, harith]

/-- C2 (amended): the item at position `pre.length` of the received
sequence is acknowledged at most once; when it carries a Scan or Run tag,
either it is never acknowledged (the loop died beforehand or its
scenario/application retrieval failed) or its single acknowledgement
appears in the trace immediately after the completion of its handling
subtest — never before or during handling; and when every item's retrieval
and acknowledgement succeed, the item is acknowledged exactly once. -/
theorem c2_acknowledge_after_handling (b : List (String × String))
    (pre : List (ActivityItem × ItemEnv)) (ai : ActivityItem) (e : ItemEnv)
    (post : List (ActivityItem × ItemEnv)) :
    countDeleted pre.length (dispatchLoop b 0 (pre ++ (ai, e) :: post)).1 ≤ 1 ∧
    ((ai.HasTag Tag.scan || ai.HasTag Tag.run) = true →
      countDeleted pre.length (dispatchLoop b 0 (pre ++ (ai, e) :: post)).1 = 0 ∨
      ∃ l1 p u l2, (dispatchLoop b 0 (pre ++ (ai, e) :: post)).1 =
          l1 ++ DEv.handled pre.length p :: DEv.deleted pre.length u :: l2 ∧
        countDeleted pre.length l1 = 0 ∧ countDeleted pre.length l2 = 0) ∧
    ((∀ q ∈ pre ++ (ai, e) :: post, stepSucceeds q.2 = true) →
      countDeleted pre.length (dispatchLoop b 0 (pre ++ (ai, e) :: post)).1 = 1) := by
  obtain ⟨t, ht, hcase⟩ := dispatch_split b pre 0 ((ai, e) :: post)
  rw [Nat.zero_add] at hcase
  have hcount_t : countDeleted pre.length t = 0 :=
    countDeleted_eq_zero _ _ (fun ev hev => by have := ht ev hev; omega)
  have hcount_post : countDeleted pre.length (dispatchLoop b (pre.length + 1) post).1 = 0 :=
    countDeleted_eq_zero _ _ (fun ev hev => by
      have := dispatchLoop_idx b post (pre.length + 1) ev hev; omega)
  refine ⟨?_, ?_, ?_⟩
  · rcases hcase with ⟨h1, _⟩ | h3
    · rw [h1, dispatchLoop_cons]
      by_cases hstep : (dispatchStep b pre.length ai e).2 = true
      · rw [if_pos hstep]
        simp only [countDeleted_append, hcount_t]
        by_cases hret : retrievalOk e = true
        · rw [dispatchStep_deleted_count b _ ai e hret, hcount_post]
        · have hb : retrievalOk e = false := by
            cases hv : retrievalOk e with
            | true => exact absurd hv hret
            | false => rfl
          rw [dispatchStep_not_retrieved b _ ai e hb]
          simp [countDeleted, hcount_post]
      · rw [if_neg hstep]
        simp only [countDeleted_append, hcount_t]
        by_cases hret : retrievalOk e = true
        · rw [dispatchStep_deleted_count b _ ai e hret]
        · have hb : retrievalOk e = false := by
            cases hv : retrievalOk e with
            | true => exact absurd hv hret
            | false => rfl
          rw [dispatchStep_not_retrieved b _ ai e hb]
          simp [countDeleted]
    · rw [show (dispatchLoop b 0 (pre ++ (ai, e) :: post)).1 = t from by rw [h3],
        hcount_t]
      omega
  · intro htag
    rcases hcase with ⟨h1, _⟩ | h3
    · by_cases hret : retrievalOk e = true
      · right
        obtain ⟨hevs, hseq, _, hhand⟩ := dispatchStep_retrieved b pre.length ai e hret
        obtain ⟨p, hp⟩ := hhand htag
        rw [h1, dispatchLoop_cons]
        by_cases hstep : (dispatchStep b pre.length ai e).2 = true
        · rw [if_pos hstep]
          refine ⟨t, p, ai.URL, (dispatchLoop b (pre.length + 1) post).1, ?_,
            hcount_t, hcount_post⟩
          simp only [hseq, hp]
          simp
        · rw [if_neg hstep]
          refine ⟨t, p, ai.URL, [], ?_, hcount_t, rfl⟩
          simp only [hseq, hp]
          simp
      · left
        have hb : retrievalOk e = false := by
          cases hv : retrievalOk e with
          | true => exact absurd hv hret
          | false => rfl
        rw [h1, dispatchLoop_cons]
        by_cases hstep : (dispatchStep b pre.length ai e).2 = true
        · rw [if_pos hstep]
          simp only [countDeleted_append, hcount_t,
            dispatchStep_not_retrieved b _ ai e hb, hcount_post]
          simp [countDeleted]
        · rw [if_neg hstep]
          simp only [countDeleted_append, hcount_t,
            dispatchStep_not_retrieved b _ ai e hb]
          simp [countDeleted]
    · left
      rw [show (dispatchLoop b 0 (pre ++ (ai, e) :: post)).1 = t from by rw [h3],
        hcount_t]
  · intro hall
    have hpre : ∀ q ∈ pre, stepSucceeds q.2 = true :=
      fun q hq => hall q (List.mem_append_left _ hq)
    have hme : stepSucceeds e = true :=
      hall (ai, e) (List.mem_append_right _ (List.mem_cons_self _ _))
    have hret : retrievalOk e = true := by
      unfold stepSucceeds at hme
      exact (Bool.and_eq_true _ _ |>.mp hme).1
    have hx := dispatch_append_ok b pre hpre 0 ((ai, e) :: post)
    rw [Nat.zero_add] at hx
    have hcount_pre : countDeleted pre.length (dispatchLoop b 0 pre).1 = 0 :=
      countDeleted_eq_zero _ _ (fun ev hev => by
        have := dispatchLoop_idx b pre 0 ev hev; omega)
    rw [hx.1, countDeleted_append, hcount_pre, dispatchLoop_cons]
    by_cases hstep : (dispatchStep b pre.length ai e).2 = true
    · rw [if_pos hstep]
      simp only [countDeleted_append]
      rw [dispatchStep_deleted_count b _ ai e hret, hcount_post]
    · rw [if_neg hstep]
      simp only []
      rw [dispatchStep_deleted_count b _ ai e hret]

/-- Scenario metadata with all required links present. -/
def okScenario : Scenario :=
  { TemplateLink := "template-link", ExperimentsLink := "experiments-link",
    UpLink := "up-link" }

/-- Run environment in which every call succeeds and the first `NextTrial`
reports the experiment stopped. -/
def okRunEnv : RunEnv :=
  { getTemplate := Except.ok (), newAPI := Except.ok (),
    createExperiment :=
      Except.ok { trials := "t", nextTrialLink := "n", selfLink := "s" },
    createBaseline := Except.ok (), steps := [stoppedFirst] }

/-- Item environment in which every call for the item succeeds. -/
def okItemEnv : ItemEnv :=
  { getScenario := Except.ok okScenario, getApplication := Except.ok (),
    updateTemplate := Except.ok (), runEnv := okRunEnv,
    deleteActivity := Except.ok () }

/-- Item environment whose `GetScenario` call fails. -/
def scenarioFailEnv : ItemEnv :=
  { getScenario := Except.error (GoErr.otherErr ("scenario fetch failed")),
    getApplication := Except.ok (), updateTemplate := Except.ok (),
    runEnv := okRunEnv, deleteActivity := Except.ok () }

/-- Item environment whose `DeleteActivity` acknowledgement fails. -/
def ackFailEnv : ItemEnv :=
  { getScenario := Except.ok okScenario, getApplication := Except.ok (),
    updateTemplate := Except.ok (), runEnv := okRunEnv,
    deleteActivity := Except.error (GoErr.otherErr ("ack failed")) }

/-- Run-tagged activity item. -/
def runItem1 : ActivityItem :=
  { URL := "activity-1", ExternalURL := "scenario-1", Tags := [Tag.run] }

/-- Scan-tagged activity item. -/
def scanItem1 : ActivityItem :=
  { URL := "activity-2", ExternalURL := "scenario-2", Tags := [Tag.scan] }

/-- C2 is false as stated: a run-tagged item received from the channel
whose `GetScenario` call fails is never acknowledged — `require.NoError`
terminates the consumer goroutine before `DeleteActivity` is reached, so
`DeleteActivity` is invoked zero times for that item, not exactly once. -/
theorem c2_counterexample :
    (dispatchLoop [] 0 [(runItem1, scenarioFailEnv)]).1 = [] ∧
      countDeleted 0 (dispatchLoop [] 0 [(runItem1, scenarioFailEnv)]).1 = 0 :=
  ⟨rfl, rfl⟩

theorem c2_witness :
    countDeleted 0 (dispatchLoop [] 0 [(runItem1, okItemEnv)]).1 = 1 :=
  (c2_acknowledge_after_handling [] [] runItem1 okItemEnv []).2.2 (by decide)

/-- C3 is false as stated: when acknowledgement of the first item fails,
the loop terminates (`require.NoError` exits the consumer goroutine) —
the second item is never handled nor acknowledged, so the loop does not
continue consuming subsequent items. -/
theorem c3_counterexample :
    dispatchLoop [] 0 [(scanItem1, ackFailEnv), (runItem1, okItemEnv)] =
      ([DEv.handled 0 true, DEv.deleted 0 ("activity-2")], false) := rfl

/-- C3 (amended): when the acknowledgement (`DeleteActivity`) of an item
fails, that failure is surfaced — the loop result is a failure — and the
dispatch loop terminates at that item: the outcome is identical whatever
items follow, and the failing item itself was acknowledged (the delete call
was made) exactly once. -/
theorem c3_ack_failure_aborts (b : List (String × String))
    (pre : List (ActivityItem × ItemEnv)) (ai : ActivityItem) (e : ItemEnv)
    (post : List (ActivityItem × ItemEnv))
    (hpre : ∀ q ∈ pre, stepSucceeds q.2 = true)
    (hret : retrievalOk e = true) (hdel : deleteOk e = false) :
    dispatchLoop b 0 (pre ++ (ai, e) :: post) = dispatchLoop b 0 (pre ++ [(ai, e)]) ∧
      (dispatchLoop b 0 (pre ++ (ai, e) :: post)).2 = false ∧
      countDeleted pre.length (dispatchLoop b 0 (pre ++ (ai, e) :: post)).1 = 1 := by
  have hfail : stepSucceeds e = false := by
    unfold stepSucceeds
    rw [hret, hdel]
    rfl
  have hstep : (dispatchStep b pre.length ai e).2 = false := by
    rw [dispatchStep_snd]; exact hfail
  have hstep' : ¬((dispatchStep b pre.length ai e).2 = true) := by
    rw [hstep]; intro hc; exact Bool.false_ne_true hc
  have hx := dispatch_append_ok b pre hpre 0 ((ai, e) :: post)
  have hy := dispatch_append_ok b pre hpre 0 [(ai, e)]
  rw [Nat.zero_add] at hx hy
  have hs1 : dispatchLoop b pre.length ((ai, e) :: post) =
      ((dispatchStep b pre.length ai e).1, false) := by
    rw [dispatchLoop_cons, if_neg hstep']
  have hs2 : dispatchLoop b pre.length [(ai, e)] =
      ((dispatchStep b pre.length ai e).1, false) := by
    rw [dispatchLoop_cons, if_neg hstep']
  have hcount_pre : countDeleted pre.length (dispatchLoop b 0 pre).1 = 0 :=
    countDeleted_eq_zero _ _ (fun ev hev => by
      have := dispatchLoop_idx b pre 0 ev hev; omega)
  refine ⟨?_, ?_, ?_⟩
  · apply Prod.ext
    · rw [hx.1, hy.1, hs1, hs2]
    · rw [hx.2, hy.2, hs1, hs2]
  · rw [hx.2, hs1]
  · rw [hx.1, countDeleted_append, hcount_pre, hs1]
    rw [dispatchStep_deleted_count b _ ai e hret]

theorem c3_witness :
    dispatchLoop [] 0 [(scanItem1, ackFailEnv), (runItem1, okItemEnv)] =
        dispatchLoop [] 0 [(scanItem1, ackFailEnv)] ∧
      (dispatchLoop [] 0 [(scanItem1, ackFailEnv), (runItem1, okItemEnv)]).2 = false ∧
      countDeleted 0 (dispatchLoop [] 0 [(scanItem1, ackFailEnv), (runItem1, okItemEnv)]).1 = 1 :=
  c3_ack_failure_aborts [] [] scanItem1 ackFailEnv [(runItem1, okItemEnv)]
    (by intro q hq; simp at hq) (by decide) (by decide)

/-- Kind of activity requested by a `CreateActivity` call. -/
inductive ActKind where
  | scan
  | run
deriving DecidableEq

/-- Observable calls of the Request Activity subtest, including the
wait-group increment. -/
inductive ReqEv where
  | listApplications
  | createActivity (k : ActKind)
  | wgAdd (n : Nat)
deriving DecidableEq

/-- Environment for the Request Activity subtest: results of its three API
calls. -/
structure ReqEnv where
  listApplications : Except GoErr Unit
  createScan : Except GoErr Unit
  createRun : Except GoErr Unit

/-- Embedding of the Request Activity subtest of `runTest` (part_000 lines
196-220): `ListApplications`, `CreateActivity` with the scan activity,
`CreateActivity` with the run activity, then `run.Add(1)`.  Each
`require.NoError` aborts the subtest on error, so statements after a failed
call never execute; in particular the counter increment `run.Add(1)` is the
statement after the run trigger, not before it. -/
def requestActivity (env : ReqEnv) : List ReqEv × Bool :=
  match env.listApplications with
  | Except.error _ => ([ReqEv.listApplications], false)
  | Except.ok _ =>
  match env.createScan with
  | Except.error _ =>
      ([ReqEv.listApplications, ReqEv.createActivity ActKind.scan], false)
  | Except.ok _ =>
  match env.createRun with
  | Except.error _ =>
      ([ReqEv.listApplications, ReqEv.createActivity ActKind.scan,
        ReqEv.createActivity ActKind.run], false)
  | Except.ok _ =>
      ([ReqEv.listApplications, ReqEv.createActivity ActKind.scan,
        ReqEv.createActivity ActKind.run, ReqEv.wgAdd 1], true)

/-- Position of the first event satisfying the predicate. -/
def firstIdx (p : ReqEv → Bool) : List ReqEv → Option Nat
  | [] => none
  | ev :: rest =>
    if p ev then some 0
    else
      match firstIdx p rest with
      | some k => some (k + 1)
      | none => none

/-- Request environment in which every call succeeds. -/
def reqAllOk : ReqEnv :=
  { listApplications := Except.ok (), createScan := Except.ok (),
    createRun := Except.ok () }

/-- C4 is false as stated: in the successful Request Activity trace the
wait-group increment `run.Add(1)` is the final event, at position 3,
strictly after the `CreateActivity` call requesting the run, at position 2
— the barrier count is incremented after the trigger, not before it. -/
theorem c4_counterexample :
    (requestActivity reqAllOk).1 =
        [ReqEv.listApplications, ReqEv.createActivity ActKind.scan,
         ReqEv.createActivity ActKind.run, ReqEv.wgAdd 1] ∧
      firstIdx (fun ev => ev == ReqEv.wgAdd 1) (requestActivity reqAllOk).1 = some 3 ∧
      firstIdx (fun ev => ev == ReqEv.createActivity ActKind.run)
          (requestActivity reqAllOk).1 = some 2 := by
  refine ⟨rfl, ?_, ?_⟩ <;> decide

theorem getLast?_append_single {α : Type} (l : List α) (a : α) :
    (l ++ [a]).getLast? = some a := by
  rw [List.getLast?_append_cons]
  rfl

/-- C4 (amended): the count of triggered runs is incremented immediately
after — not before — the `CreateActivity` call that requests the run
returns successfully: `wgAdd 1` occurs in a Request Activity trace exactly
when the trace is the full successful one, in which it is the final event,
after the run trigger; and the Run handler's deferred `run.Done()` makes
`wgDone` the final event of every Run-handler trace, so the decrement
happens exactly when the run handler completes and the orchestrator's
`run.Wait()` before `cancelSub()` defers cancellation until every counted
run loop has finished. -/
theorem c4_add_after_trigger (env : ReqEnv) (b : List (String × String))
    (renv : RunEnv) :
    (ReqEv.wgAdd 1 ∈ (requestActivity env).1 ↔
      (requestActivity env).1 =
        [ReqEv.listApplications, ReqEv.createActivity ActKind.scan,
         ReqEv.createActivity ActKind.run, ReqEv.wgAdd 1]) ∧
    (runHandler b renv).1.getLast? = some RunEv.wgDone := by
  constructor
  · cases h1 : env.listApplications with
    | error e1 => simp [requestActivity, h1]
    | ok u1 =>
      cases h2 : env.createScan with
      | error e2 => simp [requestActivity, h1, h2]
      | ok u2 =>
        cases h3 : env.createRun with
        | error e3 => simp [requestActivity, h1, h2, h3]
        | ok u3 => simp [requestActivity, h1, h2, h3]
  · cases h1 : renv.getTemplate with
    | error e1 => simp [runHandler, h1]
    | ok u1 =>
    cases h2 : renv.newAPI with
    | error e2 => simp [runHandler, h1, h2]
    | ok u2 =>
    cases h3 : renv.createExperiment with
    | error e3 => simp [runHandler, h1, h2, h3]
    | ok exp =>
    cases h4 : renv.createBaseline with
    | error e4 => simp [runHandler, h1, h2, h3, h4]
    | ok u4 =>
      simp only [runHandler, h1, h2, h3, h4]
      rw [show RunEv.getTemplate :: RunEv.createExperiment ::
          RunEv.createTrial [("baseline", "true")] b ::
            ((trialLoop renv.steps).1 ++ [RunEv.wgDone]) =
          (RunEv.getTemplate :: RunEv.createExperiment ::
            RunEv.createTrial [("baseline", "true")] b ::
              (trialLoop renv.steps).1) ++ [RunEv.wgDone] from by simp]
      exact getLast?_append_single _ _

theorem c4_witness : ReqEv.wgAdd 1 ∈ (requestActivity reqAllOk).1 :=
  (c4_add_after_trigger reqAllOk [] okRunEnv).1.mpr rfl

/-- Activity feed item as fetched by the poller, identified by its URL. -/
structure FeedItem where
  URL : String
deriving DecidableEq

/-- Modelled from the spec: the Subscription delivery loop of the
applications API package is not among the sources here (only its caller in
`runTest` is), so it follows spec section 4.3 — each poll cycle fetches a
feed page and pushes every newly-seen item onto the output channel in feed
order, while `seen` accumulates the URLs already forwarded. -/
def deliverFeed : List (List FeedItem) → List String → List FeedItem
  | [], _ => []
  | page :: rest, seen =>
    let fresh := page.filter (fun it => !(seen.contains it.URL))
    fresh ++ deliverFeed rest (seen ++ fresh.map (fun it => it.URL))

/-- What a Subscription leaves behind once cancelled. -/
structure SubOutcome where
  delivered : List FeedItem
  channelClosed : Bool
deriving DecidableEq

/-- Modelled from the spec: cancellation of the subscribing context is
checked between fetch cycles; `pages` are the pages fetched before the
cancel signal fired, after which the loop exits and closes the output
channel (so a consumer ranging over the channel terminates). -/
def subscriptionDeliver (pages : List (List FeedItem)) : SubOutcome :=
  { delivered := deliverFeed pages [], channelClosed := true }

theorem deliverFeed_fresh (pages : List (List FeedItem)) :
    ∀ seen : List String,
      (∀ u ∈ seen, u ∉ pages.flatten.map (fun it => it.URL)) →
      (pages.flatten.map (fun it => it.URL)).Nodup →
      deliverFeed pages seen = pages.flatten := by
  induction pages with
  | nil => intro seen hdisj hnodup; rfl
  | cons page rest ih =>
    intro seen hdisj hnodup
    rw [List.flatten_cons, List.map_append, List.nodup_append] at hnodup
    have hfresh : page.filter (fun it => !(seen.contains it.URL)) = page := by
      apply List.filter_eq_self.mpr
      intro a ha
      have hnot : a.URL ∉ seen := by
        intro hin
        exact hdisj a.URL hin (by
          rw [List.flatten_cons, List.map_append]
          exact List.mem_append_left _ (List.mem_map_of_mem _ ha))
      simp [hnot]
    rw [List.flatten_cons]
    simp only [deliverFeed, hfresh]
    congr 1
    apply ih
    · intro u hu
      rcases List.mem_append.mp hu with h1 | h2
      · intro hc
        exact hdisj u h1 (by
          rw [List.flatten_cons, List.map_append]
          exact List.mem_append_right _ hc)
      · intro hc
        exact hnodup.2.2 h2 hc
    · exact hnodup.2.1

/-- C5: for any sequence of feed pages with N total never-before-seen items
and zero re-seen items (all URLs distinct), the Subscription delivers
exactly those N items to its output channel in feed order (the delivered
sequence is the concatenation of the pages), and on cancellation of the
subscribing context the delivery loop exits and closes the output channel,
terminating the consumer's range loop. -/
theorem c5_subscription_delivers (pages : List (List FeedItem))
    (h : (pages.flatten.map (fun it => it.URL)).Nodup) :
    (subscriptionDeliver pages).delivered = pages.flatten ∧
      (subscriptionDeliver pages).delivered.length = pages.flatten.length ∧
      (subscriptionDeliver pages).channelClosed = true := by
  have hx : (subscriptionDeliver pages).delivered = pages.flatten :=
    deliverFeed_fresh pages [] (by intro u hu; simp at hu) h
  exact ⟨hx, by rw [hx], rfl⟩

/-- List item with hypermedia links, as handed to the delete visitors
(only its resolved self link matters to them). -/
structure NamedItem where
  selfLink : String
deriving DecidableEq

/-- Observable calls made by a command visitor. -/
inductive CmdEv where
  | deleteCall (url : String)
  | printItem
deriving DecidableEq

/-- Embedding of the visitor closure of `NewDeleteExperimentsCommand`
(experiments.go lines 95-107): an empty resolved self link returns nil
without invoking the delete API; otherwise `DeleteExperiment` is called,
its error propagated, and on success the item is printed. -/
def deleteExperimentsVisit (deleteExperiment : String → Except GoErr Unit)
    (item : NamedItem) : List CmdEv × Except GoErr Unit :=
  if item.selfLink = "" then
    ([], Except.ok ())
  else
    match deleteExperiment item.selfLink with
    | Except.error e => ([CmdEv.deleteCall item.selfLink], Except.error e)
    | Except.ok _ =>
        ([CmdEv.deleteCall item.selfLink, CmdEv.printItem], Except.ok ())

/-- Embedding of the visitor closure of `NewDeleteApplicationsCommand`
(experiments.go lines 424-435): an empty resolved self link is an error —
"malformed response, missing self link" — and no delete is attempted;
otherwise `DeleteApplication` is called, its error propagated, and on
success the item is printed. -/
def deleteApplicationsVisit (deleteApplication : String → Except GoErr Unit)
    (item : NamedItem) : List CmdEv × Except GoErr Unit :=
  if item.selfLink = "" then
    ([], Except.error (GoErr.otherErr ("malformed response, missing self link")))
  else
    match deleteApplication item.selfLink with
    | Except.error e => ([CmdEv.deleteCall item.selfLink], Except.error e)
    | Except.ok _ =>
        ([CmdEv.deleteCall item.selfLink, CmdEv.printItem], Except.ok ())

/-- Modelled from the spec: the `Lister.ForEachNamed...` iteration driver
(spec section 4.1) is not among the sources here — the visitor is invoked
per resolved item in input order; a visitor error stops the iteration
immediately and propagates; a nil return continues with the next item. -/
def forEachVisit (visit : NamedItem → List CmdEv × Except GoErr Unit) :
    List NamedItem → List CmdEv × Except GoErr Unit
  | [] => ([], Except.ok ())
  | item :: rest =>
    match visit item with
    | (evs, Except.error e) => (evs, Except.error e)
    | (evs, Except.ok _) =>
        (evs ++ (forEachVisit visit rest).1, (forEachVisit visit rest).2)

/-- C7 is false as stated for the applications delete command: visiting an
item whose resolved self link is the empty string does not silently no-op —
the visitor returns the "malformed response, missing self link" error
without invoking the delete API, and the iteration aborts without reaching
the remaining items. -/
theorem c7_counterexample :
    forEachVisit (deleteApplicationsVisit (fun _ => Except.ok ()))
        [{ selfLink := "" }, { selfLink := "app-2" }] =
      ([], Except.error (GoErr.otherErr ("malformed response, missing self link"))) :=
  rfl

/-- C7 (amended): in the experiments delete command the visitor silently
no-ops on an item whose resolved self link is empty — it returns nil
without invoking the delete API, and iteration continues with the
remaining items exactly as if the item were absent; the applications
delete visitor instead fails that item with the "malformed response,
missing self link" error, so there the iteration aborts. -/
theorem c7_empty_self_link (del : String → Except GoErr Unit)
    (item : NamedItem) (rest : List NamedItem) (hempty : item.selfLink = "") :
    deleteExperimentsVisit del item = ([], Except.ok ()) ∧
    forEachVisit (deleteExperimentsVisit del) (item :: rest) =
      forEachVisit (deleteExperimentsVisit del) rest ∧
    deleteApplicationsVisit del item =
      ([], Except.error (GoErr.otherErr ("malformed response, missing self link"))) ∧
    forEachVisit (deleteApplicationsVisit del) (item :: rest) =
      ([], Except.error (GoErr.otherErr ("malformed response, missing self link"))) := by
  have h1 : deleteExperimentsVisit del item = ([], Except.ok ()) := by
    unfold deleteExperimentsVisit
    rw [if_pos hempty]
  have h3 : deleteApplicationsVisit del item =
      ([], Except.error (GoErr.otherErr ("malformed response, missing self link"))) := by
    unfold deleteApplicationsVisit
    rw [if_pos hempty]
  refine ⟨h1, ?_, h3, ?_⟩
  · simp only [forEachVisit, h1, List.nil_append]
  · simp only [forEachVisit, h3]

theorem c7_witness :
    deleteExperimentsVisit (fun _ => Except.ok ()) { selfLink := "" } =
        ([], Except.ok ()) ∧
      forEachVisit (deleteExperimentsVisit (fun _ => Except.ok ()))
          [{ selfLink := "" }, { selfLink := "exp-2" }] =
        forEachVisit (deleteExperimentsVisit (fun _ => Except.ok ()))
          [{ selfLink := "exp-2" }] ∧
      deleteApplicationsVisit (fun _ => Except.ok ()) { selfLink := "" } =
        ([], Except.error (GoErr.otherErr ("malformed response, missing self link"))) ∧
      forEachVisit (deleteApplicationsVisit (fun _ => Except.ok ()))
          [{ selfLink := "" }, { selfLink := "exp-2" }] =
        ([], Except.error (GoErr.otherErr ("malformed response, missing self link"))) :=
  c7_empty_self_link (fun _ => Except.ok ()) { selfLink := "" }
    [{ selfLink := "exp-2" }] rfl

/-- Kubernetes resource selection parameters of `applications.Resource`,
as wired to the create/edit application command flags. -/
structure KubernetesSel where
  Namespace : String
  Namespaces : List String
  NamespaceSelector : String
  Selector : String
deriving DecidableEq

/-- Application resource (only its Kubernetes block is relevant here). -/
structure Resource where
  Kubernetes : KubernetesSel
deriving DecidableEq

/-- Embedding of `normalizeResource` (experiments.go lines 455-471). -/
def normalizeResource (r : Resource) : Resource × Bool :=
  if r.Kubernetes.Namespace = "" ∧ r.Kubernetes.Namespaces.length = 0 ∧
      r.Kubernetes.NamespaceSelector = "" then
    (r, false)
  else
    let r1 :=
      if r.Kubernetes.Namespace = "" ∧ r.Kubernetes.Namespaces.length = 1 then
        { r with Kubernetes := { r.Kubernetes with
            Namespace := r.Kubernetes.Namespaces.headD "",
            Namespaces := [] } }
      else r
    let r2 :=
      if r1.Kubernetes.Namespace ≠ "" ∧ 0 < r1.Kubernetes.Namespaces.length then
        { r1 with Kubernetes := { r1.Kubernetes with
            Namespaces := r1.Kubernetes.Namespaces ++ [r1.Kubernetes.Namespace],
            Namespace := "" } }
      else r1
    (r2, true)

/-- Embedding of the resource wiring of `NewCreateApplicationCommand`
(experiments.go lines 238-240): the resource is appended to the new
application's resources only when `normalizeResource` reports ok. -/
def createApplicationResources (resource : Resource) : List Resource :=
  match normalizeResource resource with
  | (r, true) => [r]
  | (_, false) => []

/-- C10: `normalizeResource` reports ok=false — so the create application
command discards the resource — exactly when the Kubernetes Namespace is
empty, the Namespaces list is empty and the NamespaceSelector is empty,
independently of the label Selector; in particular a resource specified
only via a label selector is silently dropped. -/
theorem c10_normalizeResource (r : Resource) (sel : String) :
    ((normalizeResource r).2 = false ↔
      (r.Kubernetes.Namespace = "" ∧ r.Kubernetes.Namespaces.length = 0 ∧
        r.Kubernetes.NamespaceSelector = "")) ∧
    createApplicationResources
        { Kubernetes := { Namespace := "", Namespaces := [],
                          NamespaceSelector := "", Selector := sel } } = [] := by
  constructor
  · by_cases hc : r.Kubernetes.Namespace = "" ∧ r.Kubernetes.Namespaces.length = 0 ∧
        r.Kubernetes.NamespaceSelector = ""
    · unfold normalizeResource
      rw [if_pos hc]
      simp [hc]
    · unfold normalizeResource
      rw [if_neg hc]
      exact iff_of_false (by simp) hc
  · rfl

theorem c5_witness :
    (subscriptionDeliver [[{ URL := "a" }], [{ URL := "b" }, { URL := "c" }]]).delivered =
        [{ URL := "a" }, { URL := "b" }, { URL := "c" }] ∧
      (subscriptionDeliver [[{ URL := "a" }], [{ URL := "b" }, { URL := "c" }]]).channelClosed = true :=
  ⟨by
    have hx := c5_subscription_delivers
      [[{ URL := "a" }], [{ URL := "b" }, { URL := "c" }]] (by decide)
    rw [hx.1]
    rfl,
   (c5_subscription_delivers
      [[{ URL := "a" }], [{ URL := "b" }, { URL := "c" }]] (by decide)).2.2⟩

/-- Restricted base-32 alphabet of `newExperimentName` (the "not Crockford"
encoding of part_000 line 243). -/
def nameAlphabet : List Char := ("0123456789ABCDEFGHJKMNPQRSTVWXYZ").toList

/-- Big-endian bits of one byte, most significant first, the order in which
Go's encoding/base32 (RFC 4648) consumes input bytes. -/
def byteBits (b : Nat) : List Nat :=
  [b / 128 % 2, b / 64 % 2, b / 32 % 2, b / 16 % 2,
   b / 8 % 2, b / 4 % 2, b / 2 % 2, b % 2]

/-- Bit string of a byte string. -/
def bitsOfBytes : List Nat → List Nat
  | [] => []
  | b :: rest => byteBits b ++ bitsOfBytes rest

/-- RFC 4648 with `NoPadding`: the final quantum is completed with zero
bits to a multiple of five (no padding characters are emitted). -/
def pad5 (l : List Nat) : List Nat :=
  l ++ List.replicate ((5 - l.length % 5) % 5) 0

/-- Values of the successive 5-bit groups of a bit string. -/
def group5 : List Nat → List Nat
  | b0 :: b1 :: b2 :: b3 :: b4 :: rest =>
      (b0 * 16 + b1 * 8 + b2 * 4 + b3 * 2 + b4) :: group5 rest
  | _ => []

/-- Character the alphabet assigns to a 5-bit value. -/
def alphaChar (v : Nat) : Char :=
  (nameAlphabet.get? v).getD 'A'

/-- Embedding of Go's encoding/base32 `EncodeToString` (RFC 4648) with the
custom alphabet and no padding. -/
def encodeBase32 (bytes : List Nat) : List Char :=
  (group5 (pad5 (bitsOfBytes bytes))).map alphaChar

/-- Bytes written by `binary.BigEndian.PutUint64`; the argument is a Go
uint64, so it is reduced modulo 2^64 by the caller. -/
def putUint64BE (v : Nat) : List Nat :=
  [v / 2 ^ 56 % 256, v / 2 ^ 48 % 256, v / 2 ^ 40 % 256, v / 2 ^ 32 % 256,
   v / 2 ^ 24 % 256, v / 2 ^ 16 % 256, v / 2 ^ 8 % 256, v % 256]

/-- Embedding of the name buffer of `newExperimentName` (part_000 lines
237-246): a 16-byte array, `PutUint64(name[:], uint64(nanos/1e6)<<16)`
fills the first eight bytes big-endian (the shift is uint64 arithmetic, so
modulo 2^64), then `rand.Read(name[6:])` overwrites the last ten bytes
with the random bytes `r`. -/
def nameBytes (nowNanos : Nat) (r : List Nat) : List Nat :=
  ((putUint64BE (nowNanos / 1000000 * 65536 % 2 ^ 64)
      ++ List.replicate 8 0).take 6) ++ r

/-- Embedding of `newExperimentName`: the base-32 encoding of the 16-byte
buffer.  `nowNanos` is `time.Now().UTC().UnixNano()` (an int64, hence below
2^63) and `r` the ten random bytes. -/
def newExperimentName (nowNanos : Nat) (r : List Nat) : String :=
  String.mk (encodeBase32 (nameBytes nowNanos r))

/-- Value of a big-endian digit string in the given base. -/
def valB (base : Nat) : List Nat → Nat
  | [] => 0
  | d :: rest => d * base ^ rest.length + valB base rest

theorem valB_append (base : Nat) (l1 l2 : List Nat) :
    valB base (l1 ++ l2) = valB base l1 * base ^ l2.length + valB base l2 := by
  induction l1 with
  | nil => simp [valB]
  | cons d t ih =>
    show valB base (d :: (t ++ l2)) = _
    simp only [valB, ih, List.length_append]
    rw [Nat.pow_add]
    ring

theorem valB_lt (base : Nat) (l : List Nat)
    (h : ∀ d ∈ l, d < base) : valB base l < base ^ l.length := by
  induction l with
  | nil => simp [valB]
  | cons d t ih =>
    have hd : d < base := h d (List.mem_cons_self _ _)
    have ht : valB base t < base ^ t.length :=
      ih (fun x hx => h x (List.mem_cons_of_mem _ hx))
    simp only [valB, List.length_cons, Nat.pow_succ]
    calc d * base ^ t.length + valB base t
        < d * base ^ t.length + base ^ t.length := by omega
      _ = (d + 1) * base ^ t.length := by ring
      _ ≤ base * base ^ t.length := Nat.mul_le_mul_right _ (by omega)
      _ = base ^ t.length * base := by ring

theorem byteBits_val (b : Nat) (h : b < 256) : valB 2 (byteBits b) = b := by
  simp only [byteBits, valB, List.length_cons, List.length_nil]
  norm_num
  omega

theorem byteBits_lt (b : Nat) : ∀ x ∈ byteBits b, x < 2 := by
  intro x hx
  simp only [byteBits, List.mem_cons, List.not_mem_nil, or_false] at hx
  rcases hx with h | h | h | h | h | h | h | h <;> subst h <;> omega

theorem byteBits_length (b : Nat) : (byteBits b).length = 8 := rfl

theorem bitsOfBytes_length (bs : List Nat) :
    (bitsOfBytes bs).length = 8 * bs.length := by
  induction bs with
  | nil => rfl
  | cons b t ih =>
    simp only [bitsOfBytes, List.length_append, byteBits_length, ih,
      List.length_cons]
    ring

theorem bitsOfBytes_lt (bs : List Nat) : ∀ x ∈ bitsOfBytes bs, x < 2 := by
  induction bs with
  | nil => intro x hx; simp [bitsOfBytes] at hx
  | cons b t ih =>
    intro x hx
    simp only [bitsOfBytes] at hx
    rcases List.mem_append.mp hx with h | h
    · exact byteBits_lt b x h
    · exact ih x h

theorem bitsOfBytes_val (bs : List Nat) (h : ∀ d ∈ bs, d < 256) :
    valB 2 (bitsOfBytes bs) = valB 256 bs := by
  induction bs with
  | nil => rfl
  | cons b t ih =>
    have hb : b < 256 := h b (List.mem_cons_self _ _)
    have ht := ih (fun x hx => h x (List.mem_cons_of_mem _ hx))
    show valB 2 (byteBits b ++ bitsOfBytes t) = valB 256 (b :: t)
    rw [valB_append, byteBits_val b hb, ht, bitsOfBytes_length]
    show _ = b * 256 ^ t.length + valB 256 t
    rw [show (2 : Nat) ^ (8 * t.length) = 256 ^ t.length from by
      rw [Nat.pow_mul]]

theorem valB_replicate_zero (base k : Nat) :
    valB base (List.replicate k 0) = 0 := by
  induction k with
  | zero => rfl
  | succ n ih => simp [List.replicate, valB, ih]

theorem group5_cons (b0 b1 b2 b3 b4 : Nat) (rest : List Nat) :
    group5 (b0 :: b1 :: b2 :: b3 :: b4 :: rest) =
      (b0 * 16 + b1 * 8 + b2 * 4 + b3 * 2 + b4) :: group5 rest := rfl

theorem group5_one (a : Nat) : group5 [a] = [] := rfl

theorem group5_two (a b : Nat) : group5 [a, b] = [] := rfl

theorem group5_three (a b c : Nat) : group5 [a, b, c] = [] := rfl

theorem group5_four (a b c d : Nat) : group5 [a, b, c, d] = [] := rfl

theorem group5_length : ∀ l : List Nat, (group5 l).length = l.length / 5
  | [] => rfl
  | [a] => by rw [group5_one]; simp
  | [a, b] => by rw [group5_two]; simp
  | [a, b, c] => by rw [group5_three]; simp
  | [a, b, c, d] => by rw [group5_four]; simp
  | b0 :: b1 :: b2 :: b3 :: b4 :: rest => by
      rw [group5_cons]
      simp only [List.length_cons, group5_length rest]
      omega

theorem group5_lt : ∀ l : List Nat, (∀ d ∈ l, d < 2) →
    ∀ v ∈ group5 l, v < 32
  | [], _, v, hv => by simp [group5] at hv
  | [a], _, v, hv => by rw [group5_one] at hv; simp at hv
  | [a, b], _, v, hv => by rw [group5_two] at hv; simp at hv
  | [a, b, c], _, v, hv => by rw [group5_three] at hv; simp at hv
  | [a, b, c, d], _, v, hv => by rw [group5_four] at hv; simp at hv
  | b0 :: b1 :: b2 :: b3 :: b4 :: rest, h, v, hv => by
      rw [group5_cons] at hv
      rcases List.mem_cons.mp hv with h1 | h2
      · have c0 : b0 < 2 := h b0 (by simp)
        have c1 : b1 < 2 := h b1 (by simp)
        have c2 : b2 < 2 := h b2 (by simp)
        have c3 : b3 < 2 := h b3 (by simp)
        have c4 : b4 < 2 := h b4 (by simp)
        omega
      · exact group5_lt rest (fun d hd => h d (by simp [hd])) v h2

theorem group5_val : ∀ l : List Nat, l.length % 5 = 0 →
    valB 32 (group5 l) = valB 2 l
  | [], _ => rfl
  | [a], h => by simp at h
  | [a, b], h => by simp at h
  | [a, b, c], h => by simp at h
  | [a, b, c, d], h => by simp at h
  | b0 :: b1 :: b2 :: b3 :: b4 :: rest, h => by
      have hrest : rest.length % 5 = 0 := by
        simp only [List.length_cons] at h
        omega
      rw [group5_cons]
      simp only [valB, group5_length, List.length_cons]
      rw [group5_val rest hrest]
      have hpow : (32 : Nat) ^ (rest.length / 5) = 2 ^ rest.length := by
        rw [show (32 : Nat) = 2 ^ 5 from by norm_num, ← Nat.pow_mul]
        congr 1
        omega
      rw [hpow]
      have e4 : (2 : Nat) ^ (rest.length + 1) = 2 ^ rest.length * 2 := by
        rw [Nat.pow_succ]
      have e3 : (2 : Nat) ^ (rest.length + 1 + 1) = 2 ^ rest.length * 4 := by
        rw [Nat.pow_succ, Nat.pow_succ]; ring
      have e2 : (2 : Nat) ^ (rest.length + 1 + 1 + 1) = 2 ^ rest.length * 8 := by
        rw [Nat.pow_succ, Nat.pow_succ, Nat.pow_succ]; ring
      have e1 : (2 : Nat) ^ (rest.length + 1 + 1 + 1 + 1) =
          2 ^ rest.length * 16 := by
        rw [Nat.pow_succ, Nat.pow_succ, Nat.pow_succ, Nat.pow_succ]; ring
      rw [e1, e2, e3, e4]
      ring

theorem alphaChar_mem (v : Nat) : alphaChar v ∈ nameAlphabet := by
  unfold alphaChar
  cases h : nameAlphabet.get? v with
  | none =>
    simp only [Option.getD_none]
    decide
  | some c =>
    simp only [Option.getD_some]
    exact List.get?_mem h

theorem alphaChar_mono_fin :
    ∀ i : Fin 32, ∀ j : Fin 32, (i : Nat) < (j : Nat) →
      alphaChar i < alphaChar j := by decide

theorem alphaChar_mono {i j : Nat} (hij : i < j) (hj : j < 32) :
    alphaChar i < alphaChar j :=
  alphaChar_mono_fin ⟨i, by omega⟩ ⟨j, hj⟩ hij

theorem lex_of_valB_lt (base : Nat) :
    ∀ l1 l2 : List Nat, l1.length = l2.length → (∀ d ∈ l2, d < base) →
      valB base l1 < valB base l2 → List.Lex (· < ·) l1 l2
  | [], [], _, _, hval => by simp [valB] at hval
  | [], d2 :: t2, hlen, _, _ => by simp at hlen
  | d1 :: t1, [], hlen, _, _ => by simp at hlen
  | d1 :: t1, d2 :: t2, hlen, hb2, hval => by
      have hlen' : t1.length = t2.length := by simpa using hlen
      rcases Nat.lt_trichotomy d1 d2 with hlt | heq | hgt
      · exact List.Lex.rel hlt
      · subst heq
        have hv : valB base t1 < valB base t2 := by
          have hx := hval
          simp only [valB, hlen'] at hx
          exact Nat.lt_of_add_lt_add_left hx
        exact List.Lex.cons
          (lex_of_valB_lt base t1 t2 hlen'
            (fun d hd => hb2 d (List.mem_cons_of_mem _ hd)) hv)
      · exfalso
        have hv2 : valB base t2 < base ^ t2.length :=
          valB_lt base t2 (fun d hd => hb2 d (List.mem_cons_of_mem _ hd))
        have hcontr : valB base (d2 :: t2) < valB base (d1 :: t1) := by
          show d2 * base ^ t2.length + valB base t2 <
            d1 * base ^ t1.length + valB base t1
          rw [hlen']
          calc d2 * base ^ t2.length + valB base t2
              < d2 * base ^ t2.length + base ^ t2.length :=
                Nat.add_lt_add_left hv2 _
            _ = (d2 + 1) * base ^ t2.length := by ring
            _ ≤ d1 * base ^ t2.length := Nat.mul_le_mul_right _ (by omega)
            _ ≤ d1 * base ^ t2.length + valB base t1 := Nat.le_add_right _ _
        exact absurd hval (Nat.lt_asymm hcontr)

theorem lex_map_alphaChar :
    ∀ l1 l2 : List Nat, List.Lex (· < ·) l1 l2 → (∀ d ∈ l1, d < 32) →
      (∀ d ∈ l2, d < 32) →
      List.Lex (· < ·) (l1.map alphaChar) (l2.map alphaChar) := by
  intro l1 l2 h
  induction h with
  | nil =>
    intro _ _
    simp only [List.map_nil, List.map_cons]
    exact List.Lex.nil
  | @cons a as bs hlex ih =>
    intro h1 h2
    simp only [List.map_cons]
    exact List.Lex.cons
      (ih (fun d hd => h1 d (List.mem_cons_of_mem _ hd))
        (fun d hd => h2 d (List.mem_cons_of_mem _ hd)))
  | @rel a as b bs hab =>
    intro h1 h2
    simp only [List.map_cons]
    exact List.Lex.rel
      (alphaChar_mono hab (h2 b (List.mem_cons_self _ _)))

theorem string_lt_of_data_lt (l1 l2 : List Char) (h : List.Lex (· < ·) l1 l2) :
    String.mk l1 < String.mk l2 :=
  String.lt_iff_toList_lt.mpr h

theorem take6_val (n : Nat) (hn : n < 2 ^ 63) :
    valB 256 ((putUint64BE (n / 1000000 * 65536 % 2 ^ 64)
        ++ List.replicate 8 0).take 6) = n / 1000000 := by
  have hms : n / 1000000 < 2 ^ 48 := by
    have h63 : (2 : Nat) ^ 63 = 9223372036854775808 := by norm_num
    have h48 : (2 : Nat) ^ 48 = 281474976710656 := by norm_num
    omega
  have hmod : n / 1000000 * 65536 % 2 ^ 64 = n / 1000000 * 65536 := by
    apply Nat.mod_eq_of_lt
    have he : (2 : Nat) ^ 64 = 2 ^ 48 * 65536 := by norm_num
    rw [he]
    exact (Nat.mul_lt_mul_right (by norm_num)).mpr hms
  rw [hmod]
  show valB 256 [n / 1000000 * 65536 / 2 ^ 56 % 256,
    n / 1000000 * 65536 / 2 ^ 48 % 256, n / 1000000 * 65536 / 2 ^ 40 % 256,
    n / 1000000 * 65536 / 2 ^ 32 % 256, n / 1000000 * 65536 / 2 ^ 24 % 256,
    n / 1000000 * 65536 / 2 ^ 16 % 256] = n / 1000000
  have h48 : (2 : Nat) ^ 48 = 281474976710656 := by norm_num
  simp only [valB, List.length_cons, List.length_nil]
  norm_num
  omega

theorem nameBytes_length (n : Nat) (r : List Nat) (hr : r.length = 10) :
    (nameBytes n r).length = 16 := by
  unfold nameBytes
  rw [List.length_append, List.length_take, hr]
  simp [putUint64BE]

theorem nameBytes_lt (n : Nat) (r : List Nat) (hb : ∀ d ∈ r, d < 256) :
    ∀ d ∈ nameBytes n r, d < 256 := by
  intro d hd
  unfold nameBytes at hd
  rcases List.mem_append.mp hd with h | h
  · have h2 := List.mem_of_mem_take h
    rcases List.mem_append.mp h2 with h3 | h3
    · simp only [putUint64BE, List.mem_cons, List.not_mem_nil, or_false] at h3
      rcases h3 with h4 | h4 | h4 | h4 | h4 | h4 | h4 | h4 <;> subst h4 <;>
        exact Nat.mod_lt _ (by norm_num)
    · have : d = 0 := List.eq_of_mem_replicate h3
      omega
  · exact hb d h

theorem nameBytes_val (n : Nat) (r : List Nat) (hn : n < 2 ^ 63)
    (hr : r.length = 10) (hb : ∀ d ∈ r, d < 256) :
    valB 256 (nameBytes n r) = n / 1000000 * 2 ^ 80 + valB 256 r := by
  unfold nameBytes
  rw [valB_append, take6_val n hn, hr]
  norm_num

theorem name_digits (n : Nat) (r : List Nat) (hn : n < 2 ^ 63)
    (hr : r.length = 10) (hb : ∀ d ∈ r, d < 256) :
    valB 32 (group5 (pad5 (bitsOfBytes (nameBytes n r)))) =
        (n / 1000000 * 2 ^ 80 + valB 256 r) * 4 ∧
      (group5 (pad5 (bitsOfBytes (nameBytes n r)))).length = 26 ∧
      ∀ v ∈ group5 (pad5 (bitsOfBytes (nameBytes n r))), v < 32 := by
  have hlen16 := nameBytes_length n r hr
  have hbits_len : (bitsOfBytes (nameBytes n r)).length = 128 := by
    rw [bitsOfBytes_length, hlen16]
  have hpad : pad5 (bitsOfBytes (nameBytes n r)) =
      bitsOfBytes (nameBytes n r) ++ List.replicate 2 0 := by
    unfold pad5
    rw [hbits_len]
  have hpad_len : (pad5 (bitsOfBytes (nameBytes n r))).length = 130 := by
    rw [hpad, List.length_append, hbits_len]
    rfl
  refine ⟨?_, ?_, ?_⟩
  · rw [group5_val _ (by simp [hpad_len]), hpad, valB_append,
      valB_replicate_zero, bitsOfBytes_val _ (nameBytes_lt n r hb),
      nameBytes_val n r hn hr hb]
    simp only [List.length_replicate]
    ring
  · rw [group5_length, hpad_len]
  · intro v hv
    refine group5_lt _ ?_ v hv
    rw [hpad]
    intro d hd
    rcases List.mem_append.mp hd with h | h
    · exact bitsOfBytes_lt _ d h
    · have : d = 0 := List.eq_of_mem_replicate h
      omega

/-- C8: generated experiment names sort by generation time at millisecond
granularity — for two invocations of `newExperimentName` whose UTC
millisecond timestamps (UnixNano divided by 10^6, nanoseconds fitting an
int64) are strictly ordered, the first name is lexicographically smaller
than the second, regardless of the random suffix bytes. -/
theorem c8_names_sortable (n1 n2 : Nat) (r1 r2 : List Nat)
    (h1 : n1 < 2 ^ 63) (h2 : n2 < 2 ^ 63)
    (hr1 : r1.length = 10) (hr2 : r2.length = 10)
    (hb1 : ∀ d ∈ r1, d < 256) (hb2 : ∀ d ∈ r2, d < 256)
    (hms : n1 / 1000000 < n2 / 1000000) :
    newExperimentName n1 r1 < newExperimentName n2 r2 := by
  obtain ⟨hv1, hl1, hd1⟩ := name_digits n1 r1 h1 hr1 hb1
  obtain ⟨hv2, hl2, hd2⟩ := name_digits n2 r2 h2 hr2 hb2
  have hp80 : (2 : Nat) ^ 80 = 1208925819614629174706176 := by norm_num
  have hrb : valB 256 r1 < 2 ^ 80 := by
    have hx := valB_lt 256 r1 hb1
    rw [hr1] at hx
    calc valB 256 r1 < 256 ^ 10 := hx
      _ = 2 ^ 80 := by norm_num
  have hvlt : valB 32 (group5 (pad5 (bitsOfBytes (nameBytes n1 r1)))) <
      valB 32 (group5 (pad5 (bitsOfBytes (nameBytes n2 r2)))) := by
    rw [hv1, hv2]
    have hmain : n1 / 1000000 * 2 ^ 80 + valB 256 r1 <
        n2 / 1000000 * 2 ^ 80 + valB 256 r2 := by
      calc n1 / 1000000 * 2 ^ 80 + valB 256 r1
          < n1 / 1000000 * 2 ^ 80 + 2 ^ 80 := Nat.add_lt_add_left hrb _
        _ = (n1 / 1000000 + 1) * 2 ^ 80 := by ring
        _ ≤ n2 / 1000000 * 2 ^ 80 := Nat.mul_le_mul_right _ (by omega)
        _ ≤ n2 / 1000000 * 2 ^ 80 + valB 256 r2 := Nat.le_add_right _ _
    exact (Nat.mul_lt_mul_right (by norm_num)).mpr hmain
  have hlex := lex_of_valB_lt 32 _ _ (by rw [hl1, hl2]) hd2 hvlt
  unfold newExperimentName encodeBase32
  exact string_lt_of_data_lt _ _ (lex_map_alphaChar _ _ hlex hd1 hd2)

theorem c8_witness :
    newExperimentName 1000000 (List.replicate 10 0) <
      newExperimentName 2000000 (List.replicate 10 255) :=
  c8_names_sortable 1000000 2000000 (List.replicate 10 0)
    (List.replicate 10 255) (by norm_num) (by norm_num) (by simp) (by simp)
    (by intro d hd; simp at hd; omega)
    (by intro d hd; simp at hd; omega)
    (by norm_num)

/-- C9: every generated experiment name is a fixed-length token of exactly
26 characters, each drawn from the restricted 32-character alphabet
"0123456789ABCDEFGHJKMNPQRSTVWXYZ", with no padding characters, for every
timestamp and every value of the ten random bytes. -/
theorem c9_name_format (nowNanos : Nat) (r : List Nat) (hr : r.length = 10) :
    (newExperimentName nowNanos r).length = 26 ∧
      ∀ c ∈ (newExperimentName nowNanos r).data, c ∈ nameAlphabet := by
  have hlen16 := nameBytes_length nowNanos r hr
  have hbits_len : (bitsOfBytes (nameBytes nowNanos r)).length = 128 := by
    rw [bitsOfBytes_length, hlen16]
  have hpad_len : (pad5 (bitsOfBytes (nameBytes nowNanos r))).length = 130 := by
    unfold pad5
    rw [List.length_append, List.length_replicate, hbits_len]
  constructor
  · show (encodeBase32 (nameBytes nowNanos r)).length = 26
    unfold encodeBase32
    rw [List.length_map, group5_length, hpad_len]
  · intro c hc
    have hm : c ∈ encodeBase32 (nameBytes nowNanos r) := hc
    unfold encodeBase32 at hm
    obtain ⟨v, hv, hvc⟩ := List.mem_map.mp hm
    rw [← hvc]
    exact alphaChar_mem v

theorem c9_witness :
    (newExperimentName 1000000 (List.replicate 10 0)).length = 26 ∧
      ∀ c ∈ (newExperimentName 1000000 (List.replicate 10 0)).data,
        c ∈ nameAlphabet :=
  c9_name_format 1000000 (List.replicate 10 0) (by simp)

end OptimizeGo
